import Mathlib

/-!
Verification of the CDON watcher's two-stage extraction pipeline.

This file gives a shallow embedding of the listing crawler
(`src/cdon_watcher/listing_crawler.py`) and the product-page parser
(`src/cdon_watcher/product_parser.py`) and proves properties of the
embedded definitions.

Modelling conventions:
* A parsed HTML document (`BeautifulSoup` object) is modelled by the
  structure `Doc`, whose fields hold the stripped text contents of the
  elements each fixed CSS selector of the source returns, in document
  order.  The selector cascade itself is fixed in the source, so each
  selector becomes one field.
* Python floats are modelled as `ℚ`.  All prices the parser produces come
  from short decimal strings, for which binary-float rounding is invisible
  at the precision the program compares and re-renders, so the rational
  model is faithful on the reachable values.
* Python strings are `String`; `str.lower()` is modelled ASCII-only
  (`pyLower`), which agrees with Python on all constants the code matches.
* Network fetches are modelled as explicit inputs: the product parser
  receives `Option Doc` (`none` = transport/HTTP failure), the listing
  crawler receives the per-page extraction results, and the per-page
  retry loop receives an oracle `Nat → PageFetch` giving the outcome of
  each navigation attempt.
-/

/-- Chars Python `str.strip()` removes (ASCII whitespace plus NBSP),
identified by code point. -/
def pyIsSpace (c : Char) : Bool :=
  c.toNat = 32 || c.toNat = 9 || c.toNat = 10 || c.toNat = 13 ||
  c.toNat = 11 || c.toNat = 12 || c.toNat = 160

/-- ASCII lower-casing of one char, as Python `str.lower()` acts on the
ASCII range. -/
def pyLowerChar (c : Char) : Char :=
  if 65 ≤ c.toNat ∧ c.toNat ≤ 90 then Char.ofNat (c.toNat + 32) else c

/-- Python `str.lower()` (ASCII fragment). -/
def pyLower (s : String) : String := ⟨s.data.map pyLowerChar⟩

/-- Substring occurrence test on char lists (pattern-at-some-suffix). -/
def containsSub (pat : List Char) : List Char → Bool
  | [] => pat.isEmpty
  | c :: cs => pat.isPrefixOf (c :: cs) || containsSub pat cs

/-- Python `pat in s` substring test. -/
def containsSubS (pat s : String) : Bool := containsSub pat.data s.data

/-- Python `str.strip()` on a char list. -/
def trimChars (l : List Char) : List Char :=
  ((l.dropWhile pyIsSpace).reverse.dropWhile pyIsSpace).reverse

/-- Python `str.replace(pat, rep)` scanning left to right, non-overlapping.
The `Nat` argument counts pattern chars still to be skipped after a match
(keeping the recursion structural in the char list). -/
def replaceGo (pat rep : List Char) : Nat → List Char → List Char
  | _, [] => []
  | 0, c :: cs =>
    if pat.isPrefixOf (c :: cs) then rep ++ replaceGo pat rep (pat.length - 1) cs
    else c :: replaceGo pat rep 0 cs
  | k + 1, _ :: cs => replaceGo pat rep k cs

/-- Python `str.replace(pat, rep)`; an empty pattern leaves the string
unchanged (the source never uses one). -/
def pyReplace (pat rep s : String) : String :=
  match pat.data with
  | [] => s
  | _ :: _ => ⟨replaceGo pat.data rep.data 0 s.data⟩

/-- Decimal value of a list of ASCII digit chars (most significant first),
the way `int`/`float` read a digit run. -/
def charsToNat (cs : List Char) : Nat :=
  cs.foldl (fun a c => 10 * a + (c.toNat - 48)) 0

/-- The first match of the regex `(\d+\.?\d*)` (Python `re.search`):
skip to the first digit, take the maximal digit run, one optional dot,
then the maximal following digit run.  Returns (integer part, fractional
part) or `none`. -/
def findFirstNumber : List Char → Option (List Char × List Char)
  | [] => none
  | c :: cs =>
    if c.isDigit then
      let intRun := c :: cs.takeWhile Char.isDigit
      match cs.dropWhile Char.isDigit with
      | '.' :: r2 => some (intRun, r2.takeWhile Char.isDigit)
      | _ => some (intRun, [])
    else findFirstNumber cs

/-- `ProductParser._extract_price_from_text`: strip currency markers and
spaces, turn the Finnish decimal comma into a dot, then parse the first
number matched by `(\d+\.?\d*)` as a float. -/
def extract_price_from_text (s : String) : Option ℚ :=
  let cleaned :=
    pyReplace "," "." (pyReplace " " "" (pyReplace " " ""
      (pyReplace "EUR" "" (pyReplace "€" "" s))))
  (findFirstNumber cleaned.data).map
    (fun pr => Rat.divInt ((charsToNat pr.1 * 10 ^ pr.2.length + charsToNat pr.2 : ℕ) : ℤ)
      ((10 ^ pr.2.length : ℕ) : ℤ))

/-- `ProductParser._determine_format`: case-insensitive substring match,
4K indicators first, then Blu-ray indicators, `"DVD"` as fallback. -/
def determine_format (title : String) : String :=
  let tl := pyLower title
  if containsSubS "4k" tl || containsSubS "uhd" tl || containsSubS "ultra hd" tl then
    "4K Blu-ray"
  else if containsSubS "blu-ray" tl || containsSubS "bluray" tl || containsSubS "bd" tl then
    "Blu-ray"
  else "DVD"

/-- `ProductParser.is_bluray_format`. -/
def is_bluray_format (title format : String) : Bool :=
  containsSubS "Blu-ray" format || containsSubS "blu-ray" (pyLower title) ||
    containsSubS "bluray" (pyLower title)

/-- `ProductParser._is_valid_title`: reject short strings, promotional
phrases, trailing percent signs, and strings that are a bare number once
dots, commas and spaces are removed. -/
def is_valid_title (title : String) : Bool :=
  if title.data.length < 10 then false
  else if containsSubS "vihdoin arki" (pyLower title) ||
      containsSubS "myyty tänään" (pyLower title) ||
      containsSubS "€" (pyLower title) || containsSubS "osta" (pyLower title) then false
  else if title.data.getLast? = some '%' then false
  else if ¬(title.data.filter (fun c => ¬(c = '.' ∨ c = ',' ∨ c = ' '))).isEmpty ∧
      (title.data.filter (fun c => ¬(c = '.' ∨ c = ',' ∨ c = ' '))).all Char.isDigit then false
  else true

/-- The `[,.]?` step of the price regex: consume one comma or dot when
present. -/
def skipOptPunct : List Char → List Char
  | ',' :: t => t
  | '.' :: t => t
  | l => l

/-- One match attempt of the regex `\d+[,.]?\d*\s*€` at the head of the
list (greedy, as the Python engine resolves this pattern). -/
def pricePatHere (cs : List Char) : Bool :=
  match cs with
  | [] => false
  | c :: rest =>
    c.isDigit &&
      (match ((skipOptPunct (rest.dropWhile Char.isDigit)).dropWhile
          Char.isDigit).dropWhile pyIsSpace with
       | '€' :: _ => true
       | _ => false)

/-- `re.search` of `\d+[,.]?\d*\s*€`: does the pattern match anywhere? -/
def pricePattern : List Char → Bool
  | [] => false
  | c :: cs => pricePatHere (c :: cs) || pricePattern cs

/-- Chars before the first occurrence of `sep` (Python `s.split(sep)[0]`). -/
def beforeFirst (sep : List Char) : List Char → List Char
  | [] => []
  | c :: cs => if sep.isPrefixOf (c :: cs) then [] else c :: beforeFirst sep cs

/-- `[a-f0-9]` char class of the product-id regexes. -/
def isHexLower (c : Char) : Bool :=
  c.isDigit || (97 ≤ c.toNat && c.toNat ≤ 102)

/-- Tail of the pattern `/tuote/[^/]+-([a-f0-9]+)/?$` once `/tuote/` has
been consumed: an optional final slash, no other slash, and the capture is
the all-hex run after the last dash (the greedy `[^/]+` pushes the dash as
far right as possible; any earlier dash would put a dash inside
`[a-f0-9]+`). -/
def tryTuoteAt (rest : List Char) : Option (List Char) :=
  let S := match rest.getLast? with
           | some '/' => rest.dropLast
           | _ => rest
  if S.contains '/' then none
  else
    let suffix := (S.reverse.takeWhile (fun c => c ≠ '-')).reverse
    if S.contains '-' ∧ suffix ≠ [] ∧ suffix.all isHexLower ∧
        1 ≤ S.length - suffix.length - 1 then some suffix
    else none

/-- `re.search(r"/tuote/[^/]+-([a-f0-9]+)/?$", url)`: try every
occurrence of `/tuote/` left to right. -/
def tuoteMatch : List Char → Option (List Char)
  | [] => none
  | c :: cs =>
    if "/tuote/".data.isPrefixOf (c :: cs) then
      match tryTuoteAt ((c :: cs).drop 7) with
      | some hex => some hex
      | none => tuoteMatch cs
    else tuoteMatch cs

/-- `re.search(r"([a-f0-9]{8,})/?$", url.rstrip("/"))`: after stripping
trailing slashes the optional slash is empty, so the match is the maximal
trailing hex run when it has at least 8 chars. -/
def hexFallback (url : List Char) : Option (List Char) :=
  let S := (url.reverse.dropWhile (fun c => c = '/')).reverse
  let run := (S.reverse.takeWhile isHexLower).reverse
  if 8 ≤ run.length then some run else none

/-- `ProductParser._extract_product_id`. -/
def extract_product_id (url : String) : Option String :=
  match tuoteMatch url.data with
  | some hex => some ⟨hex⟩
  | none => (hexFallback url.data).map (fun l => ⟨l⟩)

/-- A parsed product page.  Each field holds the stripped texts the
corresponding fixed selector cascade of the source yields, in document
order; `textNodes` holds every text node of the document (input of
`soup.find_all(string=...)`), `imageSrcs` the resolved `src`/`data-src`
values, `labelValuePairs` the structured label/value cell pairs and
`containerTexts` the free-text container blocks of the product-details
section. -/
structure Doc where
  h1 : List String := []
  h2 : List String := []
  dataTestidTitle : List String := []
  productTitleCls : List String := []
  titleCls : List String := []
  pageTitle : Option String := none
  classPrice : List String := []
  priceCls : List String := []
  dataTestidPrice : List String := []
  productPriceCls : List String := []
  textNodes : List String := []
  originalTexts : List String := []
  availabilityTexts : List String := []
  imageSrcs : List String := []
  labelValuePairs : List (String × String) := []
  containerTexts : List String := []
deriving Repr

/-- The parsed record (`Movie` dataclass).  The `production_year` field is
referenced by the repository's tests and callers
(`test_parse_product_page_includes_production_year`,
`CDONScraper.save_single_movie`) but its declaration is not part of the
`src` snapshot; it is modelled from the spec (§3 Data Model). -/
structure Movie where
  title : String
  price : ℚ
  original_price : Option ℚ
  url : String
  format : String
  availability : String
  image_url : Option String
  product_id : Option String
  production_year : Option Nat
deriving Repr

/-- Title candidates in the selector cascade order of
`ProductParser._extract_title`. -/
def titleCandidates (d : Doc) : List String :=
  d.h1 ++ d.h2 ++ d.dataTestidTitle ++ d.productTitleCls ++ d.titleCls

/-- `ProductParser._extract_title`: first candidate passing the validator,
else the page `<title>` truncated at `" | "` and re-validated. -/
def extract_title (d : Doc) : Option String :=
  match (titleCandidates d).find? is_valid_title with
  | some t => some t
  | none =>
    match d.pageTitle with
    | some tt =>
      if containsSubS " | " tt then
        let cand : String := ⟨trimChars (beforeFirst " | ".data tt.data)⟩
        if is_valid_title cand then some cand else none
      else none
    | none => none

/-- Shipping/delivery keyword test the price resolution applies. -/
def shippy (s : String) : Bool :=
  containsSubS "toimitus" (pyLower s) || containsSubS "shipping" (pyLower s)

/-- Acceptance rule of the priority-selector loop in
`ProductParser._extract_price`: currency marker present, value above the
5.0 floor, no shipping keyword. -/
def priceAccept (t : String) : Option ℚ :=
  if containsSubS "€" t then
    match extract_price_from_text t with
    | some p => if 5 < p then (if shippy t then none else some p) else none
    | none => none
  else none

/-- Acceptance rule of the text-node fallback loop in
`ProductParser._extract_price` (the node is stripped first; the currency
marker is guaranteed by the search regex). -/
def fallbackAccept (t : String) : Option ℚ :=
  if shippy (⟨trimChars t.data⟩ : String) then none
  else
    match extract_price_from_text (⟨trimChars t.data⟩ : String) with
    | some p => if 5 < p then some p else none
    | none => none

/-- Price candidates in the priority-selector order of
`ProductParser._extract_price`. -/
def priorityPriceTexts (d : Doc) : List String :=
  d.h2 ++ d.classPrice ++ d.priceCls ++ d.dataTestidPrice ++ d.productPriceCls

/-- `ProductParser._extract_price`. -/
def extract_price (d : Doc) : Option ℚ :=
  match (priorityPriceTexts d).findSome? priceAccept with
  | some p => some p
  | none => (d.textNodes.filter (fun t => pricePattern t.data)).findSome? fallbackAccept

/-- `ProductParser._extract_original_price`: first parsed number under the
strikethrough selectors, with no further guards. -/
def extract_original_price (d : Doc) : Option ℚ :=
  d.originalTexts.findSome? extract_price_from_text

/-- `ProductParser._extract_availability`. -/
def extract_availability (d : Doc) : String :=
  (d.availabilityTexts.find? (fun t => ¬t.data.isEmpty)).getD "In Stock"

/-- `ProductParser._extract_image_url`. -/
def extract_image_url (d : Doc) : Option String :=
  d.imageSrcs.head?.map
    (fun s => if "/".data.isPrefixOf s.data then "https://cdon.fi" ++ s else s)

/-- Single pass down a char list collecting maximal digit runs in document
order. -/
def digitRuns : List Char → List (List Char)
  | [] => []
  | c :: cs =>
    if c.isDigit then
      (c :: cs.takeWhile Char.isDigit) :: digitRuns (cs.dropWhile Char.isDigit)
    else digitRuns cs
termination_by l => l.length
decreasing_by
  · exact Nat.lt_succ_of_le (List.Sublist.length_le (List.dropWhile_sublist _))
  · simp

/-- Acceptance rule for one maximal digit run: exactly 4 digits with value
in [1900, 2030]. -/
def isValidYearRun (r : List Char) : Bool :=
  decide (r.length = 4 ∧ 1900 ≤ charsToNat r ∧ charsToNat r ≤ 2030)

/-- Validation of one completed digit run (accumulated in reverse). -/
def checkRun (run : List Char) : Option Nat :=
  if isValidYearRun run.reverse then some (charsToNat run.reverse) else none

/-- Single left-to-right scan over the text: `run` accumulates the current
digit run in reverse; a run is validated when it ends (at a non-digit or
at the end of the text). -/
def scanYearGo : List Char → List Char → Option Nat
  | run, [] => checkRun run
  | run, c :: cs =>
    if c.isDigit then scanYearGo (c :: run) cs
    else
      match checkRun run with
      | some y => some y
      | none => scanYearGo [] cs

/-- Modelled from the spec: `ProductParser._extract_valid_year` is
referenced by the repository's unit tests (`test_extract_valid_year`) but
its definition is not part of the `src` snapshot.  Per §4.1 of the spec it
searches free text for a 4-digit run, accepts only values in
[1900, 2030], and returns the first acceptable match in document order. -/
def extract_valid_year (text : String) : Option Nat := scanYearGo [] text.data

/-- The claim-side characterization of year extraction, written
independently from the spec's words: the first 4-digit run in document
order whose integer value lies in [1900, 2030]. -/
def firstValidYearRun (text : String) : Option Nat :=
  (((digitRuns text.data).filter isValidYearRun).head?).map charsToNat

/-- Modelled from the spec: the sibling-element strategy of
`ProductParser._extract_year_from_sibling` (referenced by the unit tests,
missing from the `src` snapshot).  Per §4.1, look for a label cell
matching the recording-year term case-insensitively and validate the
adjacent value cell. -/
def extract_year_from_sibling (d : Doc) : Option Nat :=
  (d.labelValuePairs.find?
      (fun lv => containsSubS "nauhoitusvuosi" (pyLower lv.1))).bind
    (fun lv => extract_valid_year lv.2)

/-- Modelled from the spec: the container-text fallback strategy of
`ProductParser._extract_year_from_container` (referenced by the unit
tests, missing from the `src` snapshot).  Per §4.1, look for a free-text
container mentioning the recording-year term and validate its text. -/
def extract_year_from_container (d : Doc) : Option Nat :=
  (d.containerTexts.find? (fun t => containsSubS "nauhoitusvuosi" (pyLower t))).bind
    extract_valid_year

/-- Modelled from the spec: `ProductParser._extract_production_year`
(referenced by the unit tests and by `CDONScraper.save_single_movie`,
missing from the `src` snapshot).  Per §4.1, try the sibling strategy
first, then the container strategy. -/
def extract_production_year (d : Doc) : Option Nat :=
  match extract_year_from_sibling d with
  | some y => some y
  | none => extract_year_from_container d

/-- `ProductParser.parse_product_page`.  The network fetch is an explicit
input: `none` models a transport/HTTP failure (caught and logged in the
source), `some d` the parsed response body.  The final
`production_year` step is modelled from the spec (§4.3 step 9); every
other step embeds the `src` code. -/
def parse_product_page (url : String) (page : Option Doc) : Option Movie :=
  match page with
  | none => none
  | some d =>
    match extract_title d with
    | none => none
    | some title =>
      match extract_price d with
      | none => none
      | some price =>
        some {
          title := title
          price := price
          original_price := extract_original_price d
          url := url
          format := determine_format title
          availability := extract_availability d
          image_url := extract_image_url d
          product_id := extract_product_id url
          production_year := extract_production_year d
        }

/-- Result of one category crawl: the deduplicated URL set (`list(set)` in
the source, whose order is unspecified) and the page numbers fetched, in
order. -/
structure CrawlResult where
  urls : Finset String
  visited : List Nat
deriving DecidableEq

/-- Loop body of `ListingCrawler.crawl_category`: `fuel` is the number of
page numbers left in `range(1, max_pages + 1)`. -/
def crawlGo (fetch : Nat → List String) : Nat → Nat → Nat → Finset String → List Nat → CrawlResult
  | 0, _, _, acc, vis => ⟨acc, vis⟩
  | fuel + 1, pageNum, emptyCount, acc, vis =>
    let urls := fetch pageNum
    if urls.isEmpty then
      if 3 ≤ emptyCount + 1 then ⟨acc, vis ++ [pageNum]⟩
      else crawlGo fetch fuel (pageNum + 1) (emptyCount + 1) acc (vis ++ [pageNum])
    else crawlGo fetch fuel (pageNum + 1) 0 (acc ∪ urls.toFinset) (vis ++ [pageNum])

/-- `ListingCrawler.crawl_category` with the per-page URL extraction
(`_extract_product_urls_from_page`) abstracted as `fetch`. -/
def crawl_category (fetch : Nat → List String) (maxPages : Nat) : CrawlResult :=
  crawlGo fetch maxPages 1 0 ∅ []

/-- Outcome of one navigation attempt inside
`_extract_product_urls_from_page`: the hrefs of the product links found
(`none` entries are links whose `href` attribute is missing), or the
message of the exception raised. -/
inductive PageFetch where
  | ok (links : List (Option String))
  | err (msg : String)

/-- The transient-error signatures of `_extract_product_urls_from_page`. -/
def networkErrorSigs : List String :=
  ["net::err_network_changed", "net::err_internet_disconnected",
   "net::err_connection_refused", "net::err_connection_reset",
   "net::err_connection_timed_out", "timeout", "navigation timeout"]

/-- Transient-error classification by substring match on the lowered
exception message. -/
def isNetworkError (msg : String) : Bool :=
  networkErrorSigs.any (fun sig => containsSubS sig (pyLower msg))

/-- Href post-processing of `_extract_product_urls_from_page`: drop
missing hrefs, absolutize relative ones, keep product URLs, deduplicate
(`list(set(urls))`, order unspecified). -/
def processLinks (links : List (Option String)) : Finset String :=
  (((links.filterMap id).map
      (fun h => if "/".data.isPrefixOf h.data then "https://cdon.fi" ++ h else h)).filter
    (fun h => containsSubS "/tuote/" h)).toFinset

/-- Result of `_extract_product_urls_from_page`: extracted URL set, the
backoff delays slept (in seconds, in order), and the number of navigation
attempts made. -/
structure FetchResult where
  urls : Finset String
  delays : List Nat
  attempts : Nat
deriving DecidableEq

/-- Retry loop of `_extract_product_urls_from_page`:
`for attempt in range(max_retries + 1)` with `max_retries = 3` and
`base_delay = 2`; a delay of `2 * 2 ^ (attempt - 1)` seconds precedes
every attempt after the first; transient errors retry while attempts
remain, anything else returns zero URLs. -/
def fetchLoop (att : Nat → PageFetch) : Nat → Nat → List Nat → FetchResult
  | 0, attempt, ds => ⟨∅, ds, attempt⟩
  | fuel + 1, attempt, ds =>
    let ds' := if 0 < attempt then ds ++ [2 * 2 ^ (attempt - 1)] else ds
    match att attempt with
    | .ok links =>
      if links.isEmpty then ⟨∅, ds', attempt + 1⟩
      else ⟨processLinks links, ds', attempt + 1⟩
    | .err msg =>
      if isNetworkError msg ∧ attempt < 3 then fetchLoop att fuel (attempt + 1) ds'
      else ⟨∅, ds', attempt + 1⟩

/-- `ListingCrawler._extract_product_urls_from_page` over the attempt
oracle `att`. -/
def extract_product_urls_from_page (att : Nat → PageFetch) : FetchResult :=
  fetchLoop att 4 0 []

/-- Witness document: a single price-bearing `h2` heading. -/
def docFloor : Doc := { h2 := ["13.99€"] }

/-- Witness document: valid title and a priced `h2` heading. -/
def docMatrixPriced : Doc :=
  { h1 := ["The Matrix Blu-ray Edition"], h2 := ["19.99€"] }

/-- Witness document: valid title but no element text contains the
currency marker (the price text uses only the literal currency code). -/
def docCurrencyFree : Doc :=
  { h1 := ["The Matrix Blu-ray Edition"], h2 := ["19.99 EUR"],
    textNodes := ["19.99 EUR"] }

/-- Witness document: every currency-bearing text is a shipping line. -/
def docShippingOnly : Doc :=
  { h2 := ["Toimitus 7.99€"], textNodes := ["Toimitus 7.99€"] }

/-- Witness document: the bare text `"2.50"` in every price-candidate
position and in the strikethrough selectors. -/
def docTwoFifty : Doc :=
  { h2 := ["2.50"], classPrice := ["2.50"], priceCls := ["2.50"],
    dataTestidPrice := ["2.50"], productPriceCls := ["2.50"],
    textNodes := ["2.50"], originalTexts := ["2.50"] }

/-- Witness document: the Batman product page of the end-to-end claim. -/
def docBatman : Doc :=
  { h1 := ["Batman (1989) (4K Ultra HD + Blu-ray)"], h2 := ["13.95 €"],
    labelValuePairs := [("Nauhoitusvuosi", "1989")] }

/-- The claim's 4K indicator set. -/
def has4kIndicator (t : String) : Bool :=
  containsSubS "4k" (pyLower t) || containsSubS "uhd" (pyLower t) ||
    containsSubS "ultra hd" (pyLower t)

/-- The claim's Blu-ray indicator set. -/
def hasBlurayIndicator (t : String) : Bool :=
  containsSubS "blu-ray" (pyLower t) || containsSubS "bluray" (pyLower t) ||
    containsSubS "bd" (pyLower t)

/-- The claim-side statement of format classification: 4K indicators win,
then Blu-ray indicators, else DVD. -/
def claimFormat (t : String) : String :=
  if has4kIndicator t then "4K Blu-ray"
  else if hasBlurayIndicator t then "Blu-ray"
  else "DVD"

/-- Every text the price resolution ever examines: the priority-selector
texts followed by the document's text nodes. -/
def allPriceTexts (d : Doc) : List String :=
  priorityPriceTexts d ++ d.textNodes

/-- Little-endian decimal digit chars of `n`; the fuel (first argument)
bounds the number of divisions and keeps the recursion structural. -/
def natDigitsGo : Nat → Nat → List Char
  | 0, _ => []
  | fuel + 1, n => if n = 0 then [] else Char.ofNat (48 + n % 10) :: natDigitsGo fuel (n / 10)

/-- Decimal digit chars of `n`, most significant first (`[]` for 0). -/
def natToChars (n : Nat) : List Char :=
  (natDigitsGo n n).reverse

/-- Decimal digit chars of `n`, most significant first, `"0"` for 0. -/
def natToCharsPos (n : Nat) : List Char :=
  if n = 0 then ['0'] else natToChars n

/-- `q * 10 ^ k`, computed on the numerator/denominator representation. -/
def scaleByPow (q : ℚ) (k : Nat) : ℚ :=
  Rat.divInt (q.num * ((10 ^ k : ℕ) : ℤ)) ((q.den : ℕ) : ℤ)

/-- The number of fractional digits `repr(float)` keeps for a terminating
decimal: the least `k ≥ 1` with `q * 10 ^ k` integral (floats always print
at least one fractional digit).  The search is bounded by `q.den`, which
suffices for every `q` whose denominator divides a power of ten. -/
def decExp (q : ℚ) : Nat :=
  ((List.range' 1 (q.den + 1)).find? (fun k => (scaleByPow q k).den == 1)).getD 1

/-- The least `k ≥ 0` with `q * 10 ^ k` integral (0 for integers, unlike
`decExp`).  The search is bounded by `q.den`, which suffices for every `q`
whose denominator divides a power of ten. -/
def decExp0 (q : ℚ) : Nat :=
  ((List.range' 0 (q.den + 1)).find? (fun k => (scaleByPow q k).den == 1)).getD 0

/-- The significant-digit block of a terminating decimal: `|q| * 10 ^ decExp0 q`
as a natural number. -/
def sciDigits (q : ℚ) : Nat :=
  (scaleByPow q (decExp0 q)).num.natAbs

/-- The decimal exponent of the leading significant digit of `q` (the `e` in
`d.ddd * 10 ^ e`), which Python float repr compares against the `[-4, 16)`
window when choosing positional versus scientific notation. -/
def pyExp (q : ℚ) : Int :=
  ((natToChars (sciDigits q)).length : Int) - 1 - (decExp0 q : Int)

/-- Count of trailing decimal zeros of `n` (first argument is fuel). -/
def trailingZeros : Nat → Nat → Nat
  | 0, _ => 0
  | fuel + 1, n => if n % 10 = 0 ∧ n ≠ 0 then trailingZeros fuel (n / 10) + 1 else 0

/-- Positional float rendering: shortest decimal form with at least one
fractional digit, as Python float repr produces inside its positional
window. -/
def renderPositional (q : ℚ) : List Char :=
  natToCharsPos ((scaleByPow q (decExp q)).num.natAbs / 10 ^ decExp q) ++ '.' ::
    (List.replicate
        (decExp q - (natToChars ((scaleByPow q (decExp q)).num.natAbs % 10 ^ decExp q)).length)
        '0' ++
      natToChars ((scaleByPow q (decExp q)).num.natAbs % 10 ^ decExp q))

/-- Scientific float rendering as Python float repr produces it outside the
positional window: mantissa with the trailing zeros stripped (no `.0` when a
single digit remains), `e`, an explicit sign, and a two-digit-minimum
exponent — e.g. `1e-05`, `2.5e-05`, `1e+16`. -/
def renderSci (q : ℚ) : List Char :=
  let n0 := sciDigits q
  let m := n0 / 10 ^ trailingZeros n0 n0
  let mant : List Char :=
    match natToChars m with
    | [] => ['0']
    | [d] => [d]
    | d :: rest => d :: '.' :: rest
  let eabs := (pyExp q).natAbs
  mant ++ 'e' :: (if pyExp q < 0 then '-' else '+') ::
    (if eabs < 10 then '0' :: natToChars eabs else natToChars eabs)

/-- The canonical rendering `f"{P}"` of a parsed price, following Python
float repr on the terminating decimals the parser extracts: `0.0` for zero,
positional shortest form with at least one fractional digit while the
leading-digit exponent lies in `[-4, 16)`, and scientific notation
(`1e-05`, `1e+16`, ...) outside that window. -/
def renderPrice (q : ℚ) : String :=
  if q = 0 then "0.0"
  else
    (if q.num < 0 then "-" else "") ++
      if -4 ≤ pyExp q ∧ pyExp q < 16 then (⟨renderPositional q⟩ : String)
      else (⟨renderSci q⟩ : String)

theorem singleton_infix_iff {c : Char} {l : List Char} : [c] <:+: l ↔ c ∈ l := by
  constructor
  · rintro ⟨s, t, rfl⟩
    simp
  · intro h
    obtain ⟨s, t, rfl⟩ := List.append_of_mem h
    exact ⟨s, t, by simp⟩

theorem containsSub_iff {pat l : List Char} : containsSub pat l = true ↔ pat <:+: l := by
  induction l with
  | nil =>
    cases pat <;> simp [containsSub]
  | cons c cs ih =>
    simp only [containsSub, Bool.or_eq_true, List.isPrefixOf_iff_prefix, ih]
    rw [List.infix_cons_iff]

theorem containsEuro_iff {t : String} : containsSubS "€" t = true ↔ '€' ∈ t.data := by
  unfold containsSubS
  rw [containsSub_iff]
  exact singleton_infix_iff

/-- C5: for every title string, format classification is total over
{4K Blu-ray, Blu-ray, DVD} and equals the claim's priority cascade:
4K indicators win over Blu-ray indicators, DVD is the default. -/
theorem format_classification_total_and_prioritized :
    ∀ t : String,
      (determine_format t = "4K Blu-ray" ∨ determine_format t = "Blu-ray" ∨
        determine_format t = "DVD") ∧
      determine_format t = claimFormat t := by
  intro t
  refine ⟨?_, rfl⟩
  simp only [determine_format]
  split
  · exact Or.inl rfl
  · split
    · exact Or.inr (Or.inl rfl)
    · exact Or.inr (Or.inr rfl)

/-- C9 counterexample: the title validator accepts a ten-char string of
pure punctuation, because the bare-number filter only rejects when the
string stripped of dots, commas and spaces is a nonempty digit run. -/
theorem title_validator_accepts_punctuation_only :
    is_valid_title ".........." = true := by decide

/-- C9 amended: the validator rejects strings shorter than 10 chars,
strings containing a promotional phrase case-insensitively (including any
string containing the currency symbol), strings ending in a percent sign,
and strings that are a bare number once dots, commas and spaces are
removed (punctuation-only strings are accepted); it accepts a 40-char
genuine movie title. -/
theorem title_validator_amended_rules :
    (∀ t : String, t.data.length < 10 → is_valid_title t = false) ∧
    (∀ t : String,
      (containsSubS "vihdoin arki" (pyLower t) = true ∨
       containsSubS "myyty tänään" (pyLower t) = true ∨
       containsSubS "€" t = true ∨
       containsSubS "osta" (pyLower t) = true) → is_valid_title t = false) ∧
    (∀ t : String, t.data.getLast? = some '%' → is_valid_title t = false) ∧
    (∀ t : String,
      (t.data.filter (fun c => ¬(c = '.' ∨ c = ',' ∨ c = ' '))).isEmpty = false →
      (t.data.filter (fun c => ¬(c = '.' ∨ c = ',' ∨ c = ' '))).all Char.isDigit = true →
      is_valid_title t = false) ∧
    is_valid_title "The Shawshank Redemption Special Edition" = true := by
  refine ⟨?_, ?_, ?_, ?_, by decide⟩
  · intro t h
    simp only [is_valid_title]
    rw [if_pos h]
  · intro t h
    have heu : containsSubS "€" t = true → containsSubS "€" (pyLower t) = true := by
      intro he
      have hm : '€' ∈ t.data := containsEuro_iff.mp he
      have h2 : '€' ∈ (pyLower t).data := by
        have : pyLowerChar '€' = '€' := by decide
        simpa [pyLower, this] using List.mem_map_of_mem pyLowerChar hm
      exact containsEuro_iff.mpr h2
    have hor : (containsSubS "vihdoin arki" (pyLower t) ||
        containsSubS "myyty tänään" (pyLower t) ||
        containsSubS "€" (pyLower t) || containsSubS "osta" (pyLower t)) = true := by
      rcases h with h | h | h | h
      · simp [h]
      · simp [h]
      · simp [heu h]
      · simp [h]
    simp only [is_valid_title]
    split_ifs <;> simp_all
  · intro t h
    simp only [is_valid_title]
    split_ifs <;> simp_all
  · intro t h1 h2
    simp only [is_valid_title]
    split_ifs <;> simp_all

/-- C9 witness for `title_validator_amended_rules`: each rejection rule
applied at a concrete input, plus the accepted genuine title. -/
theorem title_validator_amended_rules_witness :
    is_valid_title "Short" = false ∧
    is_valid_title "Myyty tänään 50€" = false ∧
    is_valid_title "Huge Discount 50%" = false ∧
    is_valid_title "19.99" = false ∧
    is_valid_title "The Shawshank Redemption Special Edition" = true :=
  ⟨title_validator_amended_rules.1 "Short" (by decide),
   title_validator_amended_rules.2.1 "Myyty tänään 50€" (Or.inr (Or.inl (by decide))),
   title_validator_amended_rules.2.2.1 "Huge Discount 50%" (by decide),
   title_validator_amended_rules.2.2.2.1 "19.99" (by decide) (by decide),
   title_validator_amended_rules.2.2.2.2⟩

theorem crawlGo_step_nonempty {fetch : Nat → List String} {fuel p c : Nat}
    {acc : Finset String} {vis : List Nat} (h : fetch p ≠ []) :
    crawlGo fetch (fuel + 1) p c acc vis =
      crawlGo fetch fuel (p + 1) 0 (acc ∪ (fetch p).toFinset) (vis ++ [p]) := by
  simp only [crawlGo]
  rw [if_neg]
  simp [List.isEmpty_iff, h]

theorem crawlGo_step_empty_continue {fetch : Nat → List String} {fuel p c : Nat}
    {acc : Finset String} {vis : List Nat} (h : fetch p = []) (hc : c + 1 < 3) :
    crawlGo fetch (fuel + 1) p c acc vis =
      crawlGo fetch fuel (p + 1) (c + 1) acc (vis ++ [p]) := by
  simp only [crawlGo, h, List.isEmpty_nil, if_true]
  rw [if_neg (by omega)]

theorem crawlGo_step_empty_stop {fetch : Nat → List String} {fuel p c : Nat}
    {acc : Finset String} {vis : List Nat} (h : fetch p = []) (hc : 3 ≤ c + 1) :
    crawlGo fetch (fuel + 1) p c acc vis = ⟨acc, vis ++ [p]⟩ := by
  simp only [crawlGo, h, List.isEmpty_nil, if_true]
  rw [if_pos hc]

/-- C3: with per-page URL counts [5, 0, 3, 0, 0, 0, 7] and max_pages = 7,
the crawl fetches exactly pages 1–6 (the empty-page counter resets on
page 3 and reaches 3 on pages 4–6), never fetches page 7, and returns the
deduplicated union of the URLs of pages 1 and 3. -/
theorem crawl_stops_after_three_consecutive_empty_pages :
    ∀ fetch : Nat → List String,
      (fetch 1).length = 5 → (fetch 2).length = 0 → (fetch 3).length = 3 →
      (fetch 4).length = 0 → (fetch 5).length = 0 → (fetch 6).length = 0 →
      (fetch 7).length = 7 →
      crawl_category fetch 7 =
        ⟨(fetch 1).toFinset ∪ (fetch 3).toFinset, [1, 2, 3, 4, 5, 6]⟩ := by
  intro fetch h1 h2 h3 h4 h5 h6 _
  have e2 : fetch 2 = [] := List.length_eq_zero.mp h2
  have e4 : fetch 4 = [] := List.length_eq_zero.mp h4
  have e5 : fetch 5 = [] := List.length_eq_zero.mp h5
  have e6 : fetch 6 = [] := List.length_eq_zero.mp h6
  have n1 : fetch 1 ≠ [] := by intro e; rw [e] at h1; simp at h1
  have n3 : fetch 3 ≠ [] := by intro e; rw [e] at h3; simp at h3
  rw [crawl_category, crawlGo_step_nonempty n1, crawlGo_step_empty_continue e2 (by omega),
    crawlGo_step_nonempty n3, crawlGo_step_empty_continue e4 (by omega),
    crawlGo_step_empty_continue e5 (by omega), crawlGo_step_empty_stop e6 (by omega)]
  simp

/-- C3 witness: `crawl_stops_after_three_consecutive_empty_pages` at a
concrete fetch schedule (with a URL shared between pages 1 and 3, so the
union is really deduplicated). -/
theorem crawl_stops_after_three_consecutive_empty_pages_witness :
    crawl_category
        (fun n =>
          if n = 1 then ["u1", "u2", "u3", "u4", "u5"]
          else if n = 3 then ["u3", "v1", "v2"]
          else if n = 7 then ["w1", "w2", "w3", "w4", "w5", "w6", "w7"]
          else []) 7 =
      ⟨(["u1", "u2", "u3", "u4", "u5"] : List String).toFinset ∪
        (["u3", "v1", "v2"] : List String).toFinset, [1, 2, 3, 4, 5, 6]⟩ :=
  crawl_stops_after_three_consecutive_empty_pages _ rfl rfl rfl rfl rfl rfl rfl

theorem fetchLoop_attempts_le (att : Nat → PageFetch) :
    ∀ fuel a ds, (fetchLoop att fuel a ds).attempts ≤ a + fuel
  | 0, a, ds => by simp [fetchLoop]
  | fuel + 1, a, ds => by
    simp only [fetchLoop]
    cases att a with
    | ok links =>
      by_cases hl : links.isEmpty <;> simp [hl]
    | err m =>
      dsimp only
      by_cases hc : isNetworkError m = true ∧ a < 3
      · rw [if_pos hc]
        exact (fetchLoop_attempts_le att fuel (a + 1) _).trans (by omega)
      · rw [if_neg hc]
        simp

/-- C4: a listing-page fetch failing with a connection-reset error on the
first two attempts and succeeding on the third is retried exactly twice,
with backoff delays 2 s then 4 s, and returns the successful attempt's
URLs; in general at most 4 attempts (3 retries beyond the first) are ever
made. -/
theorem transient_retry_twice_then_succeed :
    (∀ (att : Nat → PageFetch) (m0 m1 : String) (links : List (Option String)),
      att 0 = .err m0 → att 1 = .err m1 → att 2 = .ok links →
      containsSubS "net::err_connection_reset" (pyLower m0) = true →
      containsSubS "net::err_connection_reset" (pyLower m1) = true →
      extract_product_urls_from_page att = ⟨processLinks links, [2, 4], 3⟩) ∧
    (∀ att : Nat → PageFetch, (extract_product_urls_from_page att).attempts ≤ 4) := by
  constructor
  · intro att m0 m1 links h0 h1 h2 hc0 hc1
    have hn0 : isNetworkError m0 = true := by
      simp only [isNetworkError, networkErrorSigs, List.any_cons, List.any_nil, hc0,
        Bool.or_true, Bool.true_or, Bool.or_false]
    have hn1 : isNetworkError m1 = true := by
      simp only [isNetworkError, networkErrorSigs, List.any_cons, List.any_nil, hc1,
        Bool.or_true, Bool.true_or, Bool.or_false]
    have s0 : fetchLoop att 4 0 [] = fetchLoop att 3 1 [] := by
      show fetchLoop att (3 + 1) 0 [] = _
      simp [fetchLoop, h0, hn0]
    have s1 : fetchLoop att 3 1 [] = fetchLoop att 2 2 [2] := by
      show fetchLoop att (2 + 1) 1 [] = _
      simp [fetchLoop, h1, hn1]
    have s2 : fetchLoop att 2 2 [2] = ⟨processLinks links, [2, 4], 3⟩ := by
      show fetchLoop att (1 + 1) 2 [2] = _
      cases links with
      | nil => simp [fetchLoop, h2, processLinks]
      | cons x xs => simp [fetchLoop, h2]
    rw [extract_product_urls_from_page, s0, s1, s2]
  · intro att
    exact le_trans (fetchLoop_attempts_le att 4 0 []) (by omega)

theorem findSome?_eq_none_of {α β : Type} (f : α → Option β) {l : List α}
    (h : ∀ a ∈ l, f a = none) : l.findSome? f = none :=
  List.findSome?_eq_none_iff.mpr h

theorem skipOptPunct_sublist (l : List Char) : List.Sublist (skipOptPunct l) l := by
  unfold skipOptPunct
  split
  · exact List.sublist_cons_self _ _
  · exact List.sublist_cons_self _ _
  · exact List.Sublist.refl _

theorem pricePatHere_euro {cs : List Char} (h : pricePatHere cs = true) : '€' ∈ cs := by
  match cs with
  | [] => simp [pricePatHere] at h
  | c :: rest =>
    simp only [pricePatHere, Bool.and_eq_true] at h
    obtain ⟨-, hm⟩ := h
    split at hm
    · next heq =>
      have hsub : List.Sublist (((skipOptPunct (rest.dropWhile Char.isDigit)).dropWhile
          Char.isDigit).dropWhile pyIsSpace) rest :=
        ((List.dropWhile_sublist _).trans ((List.dropWhile_sublist _).trans
          ((skipOptPunct_sublist _).trans (List.dropWhile_sublist _))))
      have : '€' ∈ rest := hsub.subset (by rw [heq]; exact List.mem_cons_self _ _)
      exact List.mem_cons_of_mem _ this
    · exact absurd hm (by simp)

theorem pricePattern_euro {cs : List Char} (h : pricePattern cs = true) : '€' ∈ cs := by
  induction cs with
  | nil => simp [pricePattern] at h
  | cons c rest ih =>
    simp only [pricePattern, Bool.or_eq_true] at h
    rcases h with h | h
    · exact pricePatHere_euro h
    · exact List.mem_cons_of_mem _ (ih h)

theorem infix_dropWhile {p : Char → Bool} {pat l : List Char}
    (hpat : ∀ c ∈ pat, p c = false) (h : pat <:+: l) : pat <:+: l.dropWhile p := by
  induction l with
  | nil => simpa using h
  | cons x xs ih =>
    by_cases hx : p x
    · rw [List.dropWhile_cons, if_pos hx]
      apply ih
      rcases List.infix_cons_iff.mp h with hpre | hinf
      · cases pat with
        | nil => exact List.nil_infix
        | cons a as =>
          have ha : a = x := (List.cons_prefix_cons.mp hpre).1
          exact absurd (hpat a (List.mem_cons_self a as)) (by simp [ha, hx])
      · exact hinf
    · rw [List.dropWhile_cons, if_neg hx]
      exact h

theorem infix_trimChars {pat l : List Char}
    (hpat : ∀ c ∈ pat, pyIsSpace c = false) (h : pat <:+: l) : pat <:+: trimChars l := by
  unfold trimChars
  have h1 := infix_dropWhile hpat h
  have h2 : pat.reverse <:+: (l.dropWhile pyIsSpace).reverse := List.reverse_infix.mpr h1
  have h3 := infix_dropWhile (fun c hc => hpat c (List.mem_reverse.mp hc)) h2
  have h4 := List.reverse_infix.mpr h3
  simpa using h4

theorem pyIsSpace_pyLowerChar (c : Char) : pyIsSpace (pyLowerChar c) = pyIsSpace c := by
  have hof : ∀ m, m < 123 → 97 ≤ m → (Char.ofNat m).toNat = m := by decide
  unfold pyLowerChar
  split
  · next hc =>
    have hto : (Char.ofNat (c.toNat + 32)).toNat = c.toNat + 32 :=
      hof (c.toNat + 32) (by omega) (by omega)
    have e1 : pyIsSpace (Char.ofNat (c.toNat + 32)) = false := by
      simp only [pyIsSpace, hto, Bool.or_eq_false_iff, decide_eq_false_iff_not]
      omega
    have e2 : pyIsSpace c = false := by
      simp only [pyIsSpace, Bool.or_eq_false_iff, decide_eq_false_iff_not]
      omega
    rw [e1, e2]
  · rfl

theorem trimChars_map_pyLowerChar (l : List Char) :
    (trimChars l).map pyLowerChar = trimChars (l.map pyLowerChar) := by
  have hp : (pyIsSpace ∘ pyLowerChar) = pyIsSpace := funext pyIsSpace_pyLowerChar
  unfold trimChars
  rw [List.dropWhile_map, hp, ← List.map_reverse, List.dropWhile_map, hp, ← List.map_reverse]

theorem shippy_trim {t : String} (h : shippy t = true) :
    shippy (⟨trimChars t.data⟩ : String) = true := by
  have hl : (pyLower ⟨trimChars t.data⟩).data = trimChars (pyLower t).data := by
    simp [pyLower, trimChars_map_pyLowerChar]
  unfold shippy at h ⊢
  rw [Bool.or_eq_true] at h ⊢
  rcases h with h | h
  · left
    unfold containsSubS at h ⊢
    rw [containsSub_iff] at h ⊢
    rw [hl]
    exact infix_trimChars (by decide) h
  · right
    unfold containsSubS at h ⊢
    rw [containsSub_iff] at h ⊢
    rw [hl]
    exact infix_trimChars (by decide) h

theorem priceAccept_some {t : String} {p : ℚ} (h : priceAccept t = some p) :
    containsSubS "€" t = true ∧ 5 < p ∧ shippy t = false := by
  unfold priceAccept at h
  split at h
  · next heu =>
    split at h
    · next q hq =>
      split at h
      · next h5 =>
        split at h
        · exact absurd h (by simp)
        · next hsh =>
          refine ⟨heu, ?_, by simpa using hsh⟩
          obtain rfl : q = p := by simpa using h
          exact h5
      · exact absurd h (by simp)
    · exact absurd h (by simp)
  · exact absurd h (by simp)

theorem fallbackAccept_some {t : String} {p : ℚ} (h : fallbackAccept t = some p) : 5 < p := by
  unfold fallbackAccept at h
  split at h
  · exact absurd h (by simp)
  · split at h
    · next q hq =>
      split at h
      · next h5 =>
        obtain rfl : q = p := by simpa using h
        exact h5
      · exact absurd h (by simp)
    · exact absurd h (by simp)

/-- C6: the current-price resolution accepts a candidate only above the
5.0 floor; a document whose price candidates and text nodes all lack the
currency marker parses to no record at all; and if every currency-bearing
candidate carries a shipping keyword, price resolution fails. -/
theorem price_resolution_guards :
    ∀ (url : String) (d : Doc),
      (∀ p : ℚ, extract_price d = some p → 5 < p) ∧
      ((∀ t ∈ allPriceTexts d, containsSubS "€" t = false) →
        parse_product_page url (some d) = none) ∧
      ((∀ t ∈ allPriceTexts d, containsSubS "€" t = true → shippy t = true) →
        extract_price d = none) := by
  intro url d
  refine ⟨?_, ?_, ?_⟩
  · intro p h
    unfold extract_price at h
    split at h
    · next q hq =>
      obtain rfl : q = p := by simpa using h
      obtain ⟨t, -, ht⟩ := List.exists_of_findSome?_eq_some hq
      exact (priceAccept_some ht).2.1
    · obtain ⟨t, -, ht⟩ := List.exists_of_findSome?_eq_some h
      exact fallbackAccept_some ht
  · intro hno
    have hp : (priorityPriceTexts d).findSome? priceAccept = none := by
      apply findSome?_eq_none_of
      intro t ht
      have : containsSubS "€" t = false :=
        hno t (by simp [allPriceTexts, List.mem_append, ht])
      simp [priceAccept, this]
    have hf : d.textNodes.filter (fun t => pricePattern t.data) = [] := by
      rw [List.filter_eq_nil_iff]
      intro t ht hpat
      have heu : '€' ∈ t.data := pricePattern_euro (by simpa using hpat)
      have : containsSubS "€" t = false :=
        hno t (by simp [allPriceTexts, List.mem_append, ht])
      exact absurd (containsEuro_iff.mpr heu) (by simp [this])
    have hprice : extract_price d = none := by
      unfold extract_price
      rw [hp, hf]
      rfl
    cases ht : extract_title d <;> simp [parse_product_page, ht, hprice]
  · intro hsh
    have hp : (priorityPriceTexts d).findSome? priceAccept = none := by
      apply findSome?_eq_none_of
      intro t ht
      by_cases heu : containsSubS "€" t = true
      · have hs : shippy t = true := hsh t (by simp [allPriceTexts, List.mem_append, ht]) heu
        unfold priceAccept
        rw [if_pos heu]
        split
        · next q hq => simp [hs]
        · rfl
      · simp [priceAccept, heu]
    have hf : (d.textNodes.filter (fun t => pricePattern t.data)).findSome? fallbackAccept
        = none := by
      apply findSome?_eq_none_of
      intro t ht
      rw [List.mem_filter] at ht
      have heu : containsSubS "€" t = true :=
        containsEuro_iff.mpr (pricePattern_euro (by simpa using ht.2))
      have hs : shippy t = true :=
        hsh t (by simp [allPriceTexts, List.mem_append, ht.1]) heu
      unfold fallbackAccept
      rw [if_pos (shippy_trim hs)]
    unfold extract_price
    rw [hp, hf]

/-- C6 witness: `price_resolution_guards` applied to concrete documents:
the floor bound at a page priced via an `h2` heading, the no-currency
rejection at a currency-free page with a valid title, and the
shipping-keyword rejection. -/
theorem price_resolution_guards_witness :
    (5 : ℚ) < 13.99 ∧
    parse_product_page "https://cdon.fi/tuote/movie-abc123/" (some docCurrencyFree) = none ∧
    extract_price docShippingOnly = none :=
  ⟨(price_resolution_guards "u" docFloor).1 13.99 (by
      have h : extract_price docFloor = some (Rat.divInt 1399 100) := by decide
      rw [h]
      norm_num [Rat.divInt_eq_div]),
   (price_resolution_guards "https://cdon.fi/tuote/movie-abc123/" docCurrencyFree).2.1
     (by decide),
   (price_resolution_guards "u" docShippingOnly).2.2 (by decide)⟩

/-- C8 counterexample: a URL without the `/tuote/` marker whose page has a
valid title and price is parsed to a record, not rejected: the parser
performs no product-path check on the URL. -/
theorem parser_accepts_non_tuote_url :
    containsSubS "/tuote/" "https://example.com/some-product/" = false ∧
    (parse_product_page "https://example.com/some-product/"
        (some docMatrixPriced)).isSome = true := by
  constructor
  · decide
  · decide

/-- C8 amended: the parser applies no product-path-marker check to its
URL; for a URL lacking `/tuote/` the result is `none` exactly when title
or price resolution fails on the fetched document, and the `/tuote/`
filtering happens in the listing crawler's URL extraction instead. -/
theorem non_tuote_url_rejected_only_by_extraction :
    ∀ (url : String) (d : Doc), containsSubS "/tuote/" url = false →
      ((parse_product_page url (some d) = none ↔
        extract_title d = none ∨ extract_price d = none) ∧
       (∀ (links : List (Option String)) (u : String), u ∈ processLinks links →
         containsSubS "/tuote/" u = true)) := by
  intro url d _
  constructor
  · cases ht : extract_title d <;> cases hp : extract_price d <;>
      simp [parse_product_page, ht, hp]
  · intro links u hu
    simp only [processLinks, List.mem_toFinset, List.mem_filter] at hu
    exact hu.2

/-- C8 witness for `non_tuote_url_rejected_only_by_extraction`: at a
marker-free URL and an empty document the parse fails by title
resolution. -/
theorem non_tuote_url_rejected_only_by_extraction_witness :
    parse_product_page "https://example.com/x/" (some {}) = none :=
  (non_tuote_url_rejected_only_by_extraction "https://example.com/x/" {}
      (by decide)).1.mpr (Or.inl (by decide))

/-- C10: original-price extraction returns a number parsed from a
strikethrough-selector text with none of the current-price guards; the
text `"2.50"` (no currency marker, value below the floor) yields
original_price 2.50 while the same text is never accepted as the current
price. -/
theorem original_price_unguarded :
    (∀ (d : Doc) (p : ℚ), extract_original_price d = some p →
      ∃ t ∈ d.originalTexts, extract_price_from_text t = some p) ∧
    extract_original_price docTwoFifty = some 2.50 ∧
    extract_price docTwoFifty = none := by
  refine ⟨?_, ?_, by decide⟩
  · intro d p h
    obtain ⟨t, ht, hext⟩ := List.exists_of_findSome?_eq_some h
    exact ⟨t, ht, hext⟩
  · have h : extract_original_price docTwoFifty = some (Rat.divInt 250 100) := by decide
    rw [h]
    norm_num [Rat.divInt_eq_div]

/-- C10 witness: `original_price_unguarded` applied at the concrete
document carrying only the guard-free strikethrough text, with the
hypothesis discharged by the theorem's own concrete conjunct. -/
theorem original_price_unguarded_witness :
    ∃ t ∈ docTwoFifty.originalTexts, extract_price_from_text t = some 2.50 :=
  original_price_unguarded.1 docTwoFifty 2.50 original_price_unguarded.2.1

/-- C4 witness: `transient_retry_twice_then_succeed` at a concrete attempt
oracle failing twice with connection resets, plus the attempt bound at the
same oracle. -/
theorem transient_retry_twice_then_succeed_witness :
    extract_product_urls_from_page
        (fun n =>
          if n = 0 then .err "Page.goto: net::ERR_CONNECTION_RESET at https://cdon.fi/x"
          else if n = 1 then .err "Page.goto: net::ERR_CONNECTION_RESET at https://cdon.fi/x"
          else .ok [some "/tuote/movie-abc123/", none, some "/elsewhere/"]) =
      ⟨processLinks [some "/tuote/movie-abc123/", none, some "/elsewhere/"], [2, 4], 3⟩ ∧
    (extract_product_urls_from_page
        (fun n =>
          if n = 0 then .err "Page.goto: net::ERR_CONNECTION_RESET at https://cdon.fi/x"
          else if n = 1 then .err "Page.goto: net::ERR_CONNECTION_RESET at https://cdon.fi/x"
          else .ok [some "/tuote/movie-abc123/", none, some "/elsewhere/"])).attempts ≤ 4 :=
  ⟨transient_retry_twice_then_succeed.1 _ _ _ _ rfl rfl rfl (by decide) (by decide),
   transient_retry_twice_then_succeed.2 _⟩

theorem takeWhile_append_of_all {p : Char → Bool} {l₁ l₂ : List Char}
    (h : ∀ c ∈ l₁, p c = true) : (l₁ ++ l₂).takeWhile p = l₁ ++ l₂.takeWhile p := by
  induction l₁ with
  | nil => simp
  | cons x xs ih =>
    have hx : p x = true := h x (List.mem_cons_self x xs)
    have hxs : ∀ c ∈ xs, p c = true := fun c hc => h c (List.mem_cons_of_mem x hc)
    simp [List.takeWhile_cons, hx, ih hxs]

theorem dropWhile_append_of_all {p : Char → Bool} {l₁ l₂ : List Char}
    (h : ∀ c ∈ l₁, p c = true) : (l₁ ++ l₂).dropWhile p = l₂.dropWhile p := by
  induction l₁ with
  | nil => simp
  | cons x xs ih =>
    have hx : p x = true := h x (List.mem_cons_self x xs)
    have hxs : ∀ c ∈ xs, p c = true := fun c hc => h c (List.mem_cons_of_mem x hc)
    simp [List.dropWhile_cons, hx, ih hxs]

theorem findSome?_cons_of_some {α β : Type} {f : α → Option β} {a : α} {b : β}
    (l : List α) (h : f a = some b) : (a :: l).findSome? f = some b := by
  simp [List.findSome?, h]

theorem digitRuns_cons_digit {c : Char} {cs : List Char} (hc : c.isDigit = true) :
    digitRuns (c :: cs) =
      (c :: cs.takeWhile Char.isDigit) :: digitRuns (cs.dropWhile Char.isDigit) := by
  rw [digitRuns]
  simp [hc]

theorem digitRuns_cons_nondigit {c : Char} {cs : List Char} (hc : c.isDigit = false) :
    digitRuns (c :: cs) = digitRuns cs := by
  rw [digitRuns]
  simp [hc]

theorem digitRuns_append_run {P l : List Char} (hP : ∀ c ∈ P, c.isDigit = true)
    (hne : P ≠ []) :
    digitRuns (P ++ l) = (P ++ l.takeWhile Char.isDigit) :: digitRuns (l.dropWhile Char.isDigit) := by
  cases P with
  | nil => exact absurd rfl hne
  | cons p P' =>
    have hp : p.isDigit = true := hP p (List.mem_cons_self p P')
    have hP' : ∀ c ∈ P', c.isDigit = true := fun c hc => hP c (List.mem_cons_of_mem p hc)
    rw [List.cons_append, digitRuns_cons_digit hp,
      takeWhile_append_of_all hP', dropWhile_append_of_all hP']
    simp

theorem scanYearGo_spec :
    ∀ (l run : List Char), (∀ c ∈ run, c.isDigit = true) →
      scanYearGo run l =
        (((digitRuns (run.reverse ++ l)).filter isValidYearRun).head?).map charsToNat := by
  intro l
  induction l with
  | nil =>
    intro run hrun
    rw [scanYearGo]
    cases hr : run with
    | nil => simp [checkRun, isValidYearRun, digitRuns]
    | cons r rs =>
      subst hr
      have hne : (r :: rs).reverse ≠ [] := by simp
      have hdr : ∀ c ∈ (r :: rs).reverse, c.isDigit = true := by
        intro c hc
        exact hrun c (List.mem_reverse.mp hc)
      have hdig : digitRuns ((r :: rs).reverse) = [(r :: rs).reverse] := by
        have h0 := digitRuns_append_run (l := []) hdr hne
        simpa [digitRuns] using h0
      rw [List.append_nil, hdig, checkRun]
      by_cases hv : isValidYearRun (r :: rs).reverse = true
      · simp [hv]
      · have hv' : isValidYearRun (r :: rs).reverse = false := by simpa using hv
        simp [hv']
  | cons c cs ih =>
    intro run hrun
    rw [scanYearGo]
    by_cases hc : c.isDigit = true
    · rw [if_pos hc]
      rw [ih (c :: run) (by
        intro x hx
        rcases List.mem_cons.mp hx with rfl | hx
        · exact hc
        · exact hrun x hx)]
      simp [List.reverse_cons, List.append_assoc]
    · have hc' : c.isDigit = false := by simpa using hc
      rw [if_neg (by simp [hc'])]
      cases hr : run with
      | nil =>
        subst hr
        have hcr : checkRun [] = none := by decide
        rw [hcr, ih [] (by simp)]
        simp only [List.reverse_nil, List.nil_append]
        rw [digitRuns_cons_nondigit hc']
      | cons r rs =>
        subst hr
        have hne : (r :: rs).reverse ≠ [] := by simp
        have hdr : ∀ x ∈ (r :: rs).reverse, x.isDigit = true := by
          intro x hx
          exact hrun x (List.mem_reverse.mp hx)
        rw [digitRuns_append_run hdr hne]
        have ht1 : (c :: cs).takeWhile Char.isDigit = [] := by
          simp [List.takeWhile_cons, hc']
        have hd1 : (c :: cs).dropWhile Char.isDigit = c :: cs := by
          simp [List.dropWhile_cons, hc']
        rw [ht1, hd1, List.append_nil, digitRuns_cons_nondigit hc', checkRun]
        generalize (r :: rs).reverse = R
        by_cases hv : isValidYearRun R = true
        · rw [if_pos hv]
          simp [List.filter_cons, hv]
        · have hv' : isValidYearRun R = false := by simpa using hv
          rw [if_neg (by simp [hv'])]
          rw [ih [] (by simp)]
          simp [List.filter_cons, hv']

/-- C2: production-year extraction (modelled from the spec; the
implementation is a single scan) returns the first 4-digit run in document
order whose value lies in [1900, 2030], and nothing otherwise: boundary
years 1900/2030 are accepted, 1899/2031 rejected, 3- and 5-digit runs
rejected, and the first of several valid runs wins. -/
theorem year_extraction_first_valid_run :
    (∀ s : String, extract_valid_year s = firstValidYearRun s) ∧
    extract_valid_year "1900" = some 1900 ∧
    extract_valid_year "2030" = some 2030 ∧
    extract_valid_year "1899" = none ∧
    extract_valid_year "2031" = none ∧
    extract_valid_year "123" = none ∧
    extract_valid_year "12345" = none ∧
    extract_valid_year "Made in 1999 and remade in 2021" = some 1999 := by
  refine ⟨?_, by decide, by decide, by decide, by decide, by decide, by decide, by decide⟩
  intro s
  rw [extract_valid_year, firstValidYearRun, scanYearGo_spec s.data [] (by simp)]
  simp

theorem batman_title_is_valid :
    is_valid_title "Batman (1989) (4K Ultra HD + Blu-ray)" = true := by decide

/-- C1: any product page whose first heading is the Batman title, whose
price heading reads "13.95 €", and which pairs the structured label
"Nauhoitusvuosi" with "1989" parses to a record with that title, price
13.95, format "4K Blu-ray" and production year 1989. -/
theorem batman_page_parses_end_to_end :
    ∀ (url : String) (d : Doc) (rest : List String),
      d.h1 = "Batman (1989) (4K Ultra HD + Blu-ray)" :: rest →
      d.h2 = ["13.95 €"] →
      d.labelValuePairs = [("Nauhoitusvuosi", "1989")] →
      ∃ m : Movie, parse_product_page url (some d) = some m ∧
        m.title = "Batman (1989) (4K Ultra HD + Blu-ray)" ∧
        m.price = 13.95 ∧ m.format = "4K Blu-ray" ∧ m.production_year = some 1989 := by
  intro url d rest h1 h2 h3
  have ht : extract_title d = some "Batman (1989) (4K Ultra HD + Blu-ray)" := by
    have hf : (titleCandidates d).find? is_valid_title =
        some "Batman (1989) (4K Ultra HD + Blu-ray)" := by
      rw [titleCandidates, h1, List.cons_append]
      exact List.find?_cons_of_pos _ batman_title_is_valid
    simp [extract_title, hf]
  have hp : extract_price d = some (Rat.divInt 1395 100) := by
    have hf : (priorityPriceTexts d).findSome? priceAccept = some (Rat.divInt 1395 100) := by
      rw [priorityPriceTexts, h2, List.cons_append]
      exact findSome?_cons_of_some _ (by decide)
    simp [extract_price, hf]
  have hy : extract_year_from_sibling d = some 1989 := by
    unfold extract_year_from_sibling
    rw [h3]
    decide
  have hpy : extract_production_year d = some 1989 := by
    unfold extract_production_year
    rw [hy]
  have hparse : parse_product_page url (some d) = some {
      title := "Batman (1989) (4K Ultra HD + Blu-ray)"
      price := Rat.divInt 1395 100
      original_price := extract_original_price d
      url := url
      format := determine_format "Batman (1989) (4K Ultra HD + Blu-ray)"
      availability := extract_availability d
      image_url := extract_image_url d
      product_id := extract_product_id url
      production_year := extract_production_year d } := by
    simp only [parse_product_page, ht, hp]
  refine ⟨_, hparse, rfl, ?_, ?_, ?_⟩
  · show Rat.divInt 1395 100 = 13.95
    norm_num [Rat.divInt_eq_div]
  · show determine_format "Batman (1989) (4K Ultra HD + Blu-ray)" = "4K Blu-ray"
    decide
  · show extract_production_year d = some 1989
    exact hpy

/-- C1 witness: `batman_page_parses_end_to_end` at the concrete Batman
document and its CDON product URL. -/
theorem batman_page_parses_end_to_end_witness :
    ∃ m : Movie,
      parse_product_page
          "https://cdon.fi/tuote/batman-1989-4k-ultra-hd-blu-ray-5cb24b79a41d59c4/"
          (some docBatman) = some m ∧
      m.title = "Batman (1989) (4K Ultra HD + Blu-ray)" ∧
      m.price = 13.95 ∧ m.format = "4K Blu-ray" ∧ m.production_year = some 1989 :=
  batman_page_parses_end_to_end
    "https://cdon.fi/tuote/batman-1989-4k-ultra-hd-blu-ray-5cb24b79a41d59c4/"
    docBatman [] rfl rfl rfl

theorem data_append (a b : String) : (a ++ b).data = a.data ++ b.data := rfl

theorem takeWhile_of_all {p : Char → Bool} {l : List Char}
    (h : ∀ c ∈ l, p c = true) : l.takeWhile p = l := by
  induction l with
  | nil => rfl
  | cons x xs ih =>
    have hx : p x = true := h x (List.mem_cons_self x xs)
    simp [List.takeWhile_cons, hx, ih (fun c hc => h c (List.mem_cons_of_mem x hc))]

theorem replaceGo_id {p : Char} {ps rep s : List Char} (h : p ∉ s) :
    replaceGo (p :: ps) rep 0 s = s := by
  induction s with
  | nil => rfl
  | cons c cs ih =>
    have hpc : p ≠ c := fun he => h (he ▸ List.mem_cons_self c cs)
    have hpre : (p :: ps).isPrefixOf (c :: cs) = false := by
      simp [List.isPrefixOf, beq_eq_false_iff_ne.mpr hpc]
    rw [replaceGo, if_neg (by simp [hpre])]
    rw [ih (fun hm => h (List.mem_cons_of_mem c hm))]

theorem replaceGo_strip_last {c : Char} {s : List Char} (h : c ∉ s) :
    replaceGo [c] [] 0 (s ++ [c]) = s := by
  induction s with
  | nil =>
    rw [List.nil_append, replaceGo, if_pos (by simp [List.isPrefixOf])]
    rfl
  | cons x xs ih =>
    have hcx : c ≠ x := fun he => h (he ▸ List.mem_cons_self x xs)
    have hpre : ([c] : List Char).isPrefixOf (x :: (xs ++ [c])) = false := by
      simp [List.isPrefixOf, beq_eq_false_iff_ne.mpr hcx]
    rw [List.cons_append, replaceGo, if_neg (by simp [hpre])]
    rw [ih (fun hm => h (List.mem_cons_of_mem x hm))]

theorem natDigitsGo_eq :
    ∀ (fuel m : Nat), m ≤ fuel →
      natDigitsGo fuel m = (Nat.digits 10 m).map (fun d => Char.ofNat (48 + d)) := by
  intro fuel
  induction fuel with
  | zero =>
    intro m hm
    obtain rfl : m = 0 := Nat.le_zero.mp hm
    simp [natDigitsGo]
  | succ fuel ih =>
    intro m hm
    rw [natDigitsGo]
    by_cases h0 : m = 0
    · subst h0
      simp
    · rw [if_neg h0]
      have hdiv : m / 10 ≤ fuel :=
        Nat.le_of_lt_succ (Nat.lt_of_lt_of_le (Nat.div_lt_self (Nat.pos_of_ne_zero h0)
          (by norm_num)) hm)
      rw [ih (m / 10) hdiv, Nat.digits_def' (by norm_num : (1 : ℕ) < 10)
        (Nat.pos_of_ne_zero h0)]
      rfl

theorem natToChars_eq (m : Nat) :
    natToChars m = ((Nat.digits 10 m).map (fun d => Char.ofNat (48 + d))).reverse := by
  rw [natToChars, natDigitsGo_eq m m (Nat.le_refl m)]

theorem digitCharFacts :
    ∀ d, d < 10 →
      ((Char.ofNat (48 + d)).isDigit = true ∧ (Char.ofNat (48 + d)).toNat = 48 + d) := by
  decide

theorem natToChars_all_digit {m : Nat} : ∀ c ∈ natToChars m, c.isDigit = true := by
  intro c hc
  rw [natToChars_eq] at hc
  rw [List.mem_reverse] at hc
  obtain ⟨d, hd, rfl⟩ := List.mem_map.mp hc
  exact (digitCharFacts d (Nat.digits_lt_base (by norm_num) hd)).1

theorem charsToNat_foldl_digits :
    ∀ (L : List Nat), (∀ d ∈ L, d < 10) → ∀ acc : Nat,
      List.foldl (fun a c => 10 * a + (c.toNat - 48)) acc
          ((L.map (fun d => Char.ofNat (48 + d))).reverse) =
        acc * 10 ^ L.length + Nat.ofDigits 10 L := by
  intro L
  induction L with
  | nil =>
    intro _ acc
    simp [Nat.ofDigits]
  | cons d t ih =>
    intro hL acc
    have hd : d < 10 := hL d (List.mem_cons_self d t)
    have ht : ∀ x ∈ t, x < 10 := fun x hx => hL x (List.mem_cons_of_mem d hx)
    rw [List.map_cons, List.reverse_cons, List.foldl_append, ih ht acc]
    simp only [List.foldl_cons, List.foldl_nil, (digitCharFacts d hd).2, Nat.ofDigits_cons,
      List.length_cons]
    have : 48 + d - 48 = d := by omega
    rw [this]
    ring

theorem charsToNat_natToChars (m : Nat) : charsToNat (natToChars m) = m := by
  rw [charsToNat, natToChars_eq,
    charsToNat_foldl_digits (Nat.digits 10 m) (fun d hd => Nat.digits_lt_base (by norm_num) hd) 0]
  simp [Nat.ofDigits_digits]

theorem charsToNat_natToCharsPos (m : Nat) : charsToNat (natToCharsPos m) = m := by
  rw [natToCharsPos]
  by_cases h0 : m = 0
  · subst h0
    decide
  · rw [if_neg h0]
    exact charsToNat_natToChars m

theorem charsToNat_replicate_zeros (j : Nat) (cs : List Char) :
    charsToNat (List.replicate j '0' ++ cs) = charsToNat cs := by
  induction j with
  | zero => rfl
  | succ j ih =>
    rw [List.replicate_succ, List.cons_append, charsToNat, List.foldl_cons]
    have : (10 * 0 + ('0'.toNat - 48)) = 0 := by decide
    rw [this]
    exact ih

theorem natToChars_length_le {m k : Nat} (h : m < 10 ^ k) : (natToChars m).length ≤ k := by
  rw [natToChars_eq, List.length_reverse, List.length_map]
  by_cases h0 : m = 0
  · subst h0
    simp
  · rw [Nat.digits_len 10 m (by norm_num) h0]
    exact Nat.succ_le_of_lt (Nat.log_lt_of_lt_pow h0 h)

theorem natToCharsPos_ne_nil (m : Nat) : natToCharsPos m ≠ [] := by
  rw [natToCharsPos]
  by_cases h0 : m = 0
  · simp [h0]
  · rw [if_neg h0, natToChars_eq]
    simp [Nat.digits_ne_nil_iff_ne_zero.mpr h0]

theorem natToCharsPos_all_digit {m : Nat} : ∀ c ∈ natToCharsPos m, c.isDigit = true := by
  intro c hc
  rw [natToCharsPos] at hc
  by_cases h0 : m = 0
  · rw [if_pos h0] at hc
    obtain rfl : c = '0' := by simpa using hc
    decide
  · rw [if_neg h0] at hc
    exact natToChars_all_digit c hc

theorem findFirstNumber_exact {ic fc : List Char} (hne : ic ≠ [])
    (hic : ∀ c ∈ ic, c.isDigit = true) (hfc : ∀ c ∈ fc, c.isDigit = true) :
    findFirstNumber (ic ++ '.' :: fc) = some (ic, fc) := by
  cases ic with
  | nil => exact absurd rfl hne
  | cons hd tl =>
    have h1 : hd.isDigit = true := hic hd (List.mem_cons_self hd tl)
    have htl : ∀ c ∈ tl, c.isDigit = true := fun c hc => hic c (List.mem_cons_of_mem hd hc)
    rw [List.cons_append, findFirstNumber, if_pos h1]
    have ha : (tl ++ '.' :: fc).takeWhile Char.isDigit = tl := by
      rw [takeWhile_append_of_all htl]
      simp [List.takeWhile_cons]
    have hb : (tl ++ '.' :: fc).dropWhile Char.isDigit = '.' :: fc := by
      rw [dropWhile_append_of_all htl]
      simp [List.dropWhile_cons]
    rw [ha, hb]
    simp [takeWhile_of_all hfc]

theorem scaleByPow_eq (q : ℚ) (k : Nat) : scaleByPow q k = q * ((10 ^ k : ℕ) : ℚ) := by
  have hden : ((q.den : ℚ)) ≠ 0 := by
    exact_mod_cast q.den_nz
  rw [scaleByPow, Rat.divInt_eq_div]
  push_cast
  rw [mul_comm ((q.num : ℚ)) _, mul_div_assoc, Rat.num_div_den, mul_comm]

theorem scaleByPow_den_one {q : ℚ} {j : Nat} (h : q.den ∣ 10 ^ j) :
    (scaleByPow q j).den = 1 := by
  obtain ⟨c, hc⟩ := h
  have hden : ((q.den : ℚ)) ≠ 0 := by
    exact_mod_cast q.den_nz
  have key : scaleByPow q j = ((q.num * c : ℤ) : ℚ) := by
    rw [scaleByPow, hc, Rat.divInt_eq_div]
    push_cast
    field_simp
    ring
  rw [key, Rat.den_intCast]

theorem dvd_ten_pow_self : ∀ n : Nat, n ≠ 0 → ∀ d : Nat, n ∣ 10 ^ d → n ∣ 10 ^ n := by
  intro n
  induction n using Nat.strong_induction_on with
  | _ n ih =>
    intro hn d hd
    by_cases h1 : n = 1
    · subst h1
      exact one_dvd _
    · have hp : n.minFac.Prime := Nat.minFac_prime h1
      have hpn : n.minFac ∣ n := Nat.minFac_dvd n
      have hnm : n.minFac * (n / n.minFac) = n := Nat.mul_div_cancel' hpn
      have hm0 : n / n.minFac ≠ 0 := by
        intro h0
        rw [h0, Nat.mul_zero] at hnm
        exact hn hnm.symm
      have hmlt : n / n.minFac < n :=
        Nat.div_lt_self (Nat.pos_of_ne_zero hn) hp.one_lt
      have hmn : n / n.minFac ∣ n := ⟨n.minFac, (Nat.div_mul_cancel hpn).symm⟩
      have ihm : n / n.minFac ∣ 10 ^ (n / n.minFac) :=
        ih (n / n.minFac) hmlt hm0 d (dvd_trans hmn hd)
      have hp10 : n.minFac ∣ 10 := hp.dvd_of_dvd_pow (dvd_trans hpn hd)
      have hstep : n.minFac * (n / n.minFac) ∣ 10 * 10 ^ (n / n.minFac) :=
        mul_dvd_mul hp10 ihm
      rw [hnm] at hstep
      have hpow : (10 : ℕ) * 10 ^ (n / n.minFac) = 10 ^ (n / n.minFac + 1) := by ring
      rw [hpow] at hstep
      exact dvd_trans hstep (pow_dvd_pow 10 (by omega))

theorem decExp_spec (q : ℚ) (d : Nat) (h : q.den ∣ 10 ^ d) :
    (scaleByPow q (decExp q)).den = 1 ∧ 1 ≤ decExp q := by
  have hden0 : q.den ≠ 0 := q.den_nz
  have hpos : 0 < q.den := Nat.pos_of_ne_zero hden0
  have hself : q.den ∣ 10 ^ q.den := dvd_ten_pow_self q.den hden0 d h
  have hmem : q.den ∈ List.range' 1 (q.den + 1) := by
    rw [List.mem_range'_1]
    omega
  have hsome : ((List.range' 1 (q.den + 1)).find?
      (fun k => (scaleByPow q k).den == 1)).isSome = true := by
    rw [List.find?_isSome]
    exact ⟨q.den, hmem, by simp [scaleByPow_den_one hself]⟩
  obtain ⟨j, hj⟩ := Option.isSome_iff_exists.mp hsome
  have hdec : decExp q = j := by
    simp only [decExp, hj, Option.getD_some]
  have hjp := List.find?_some hj
  simp only [beq_iff_eq] at hjp
  have hjm := List.mem_of_find?_eq_some hj
  rw [List.mem_range'_1] at hjm
  constructor
  · rw [hdec]
    exact hjp
  · rw [hdec]
    exact hjm.1

theorem not_mem_of_digits_dot {s : List Char} {x : Char}
    (hall : ∀ c ∈ s, c.isDigit = true ∨ c = '.')
    (hx : x.isDigit = false) (hx2 : x ≠ '.') : x ∉ s := by
  intro hm
  rcases hall x hm with h | h
  · rw [h] at hx
    exact absurd hx (by decide)
  · exact hx2 h

theorem pyReplace_single_id (pat rep s : String) (p : Char) (ps : List Char)
    (hpat : pat.data = p :: ps) (h : p ∉ s.data) : pyReplace pat rep s = s := by
  unfold pyReplace
  rw [hpat]
  exact congrArg String.mk (replaceGo_id h)

theorem pyReplace_single_strip (pat : String) (c : Char) (s : List Char)
    (hpat : pat.data = [c]) (h : c ∉ s) :
    pyReplace pat "" (⟨s ++ [c]⟩ : String) = (⟨s⟩ : String) := by
  unfold pyReplace
  rw [hpat]
  exact congrArg String.mk (replaceGo_strip_last h)

theorem parse_render_core (n k : Nat) :
    extract_price_from_text
      (⟨(natToCharsPos (n / 10 ^ k) ++ '.' ::
          (List.replicate (k - (natToChars (n % 10 ^ k)).length) '0' ++
            natToChars (n % 10 ^ k))) ++ ['€']⟩ : String) =
      some (Rat.divInt ((n : ℕ) : ℤ) ((10 ^ k : ℕ) : ℤ)) := by
  set s0 := natToCharsPos (n / 10 ^ k) ++ '.' ::
      (List.replicate (k - (natToChars (n % 10 ^ k)).length) '0' ++
        natToChars (n % 10 ^ k)) with hs0
  have hall : ∀ c ∈ s0, c.isDigit = true ∨ c = '.' := by
    intro c hc
    rw [hs0] at hc
    simp only [List.mem_append, List.mem_cons] at hc
    rcases hc with h | h | h
    · exact Or.inl (natToCharsPos_all_digit c h)
    · exact Or.inr h
    · rcases h with h2 | h2
      · rw [List.eq_of_mem_replicate h2]
        exact Or.inl (by decide)
      · exact Or.inl (natToChars_all_digit c h2)
  have hE : '€' ∉ s0 := not_mem_of_digits_dot hall (by decide) (by decide)
  have hEu : 'E' ∉ s0 := not_mem_of_digits_dot hall (by decide) (by decide)
  have hsp : ' ' ∉ s0 := not_mem_of_digits_dot hall (by decide) (by decide)
  have hnb : '\xA0' ∉ s0 := not_mem_of_digits_dot hall (by decide) (by decide)
  have hcm : ',' ∉ s0 := not_mem_of_digits_dot hall (by decide) (by decide)
  have hc1 : pyReplace "€" "" (⟨s0 ++ ['€']⟩ : String) = (⟨s0⟩ : String) :=
    pyReplace_single_strip "€" '€' s0 rfl hE
  have hc2 : pyReplace "EUR" "" (⟨s0⟩ : String) = (⟨s0⟩ : String) :=
    pyReplace_single_id "EUR" "" ⟨s0⟩ 'E' ['U', 'R'] rfl hEu
  have hc3 : pyReplace " " "" (⟨s0⟩ : String) = (⟨s0⟩ : String) :=
    pyReplace_single_id " " "" ⟨s0⟩ ' ' [] rfl hsp
  have hc4 : pyReplace " " "" (⟨s0⟩ : String) = (⟨s0⟩ : String) :=
    pyReplace_single_id " " "" ⟨s0⟩ '\xA0' [] rfl hnb
  have hc5 : pyReplace "," "." (⟨s0⟩ : String) = (⟨s0⟩ : String) :=
    pyReplace_single_id "," "." ⟨s0⟩ ',' [] rfl hcm
  simp only [extract_price_from_text]
  rw [hc1, hc2, hc3, hc4, hc5]
  have hdata : ((⟨s0⟩ : String)).data = s0 := rfl
  rw [hdata, hs0]
  have hfc : ∀ c ∈ List.replicate (k - (natToChars (n % 10 ^ k)).length) '0' ++
      natToChars (n % 10 ^ k), c.isDigit = true := by
    intro c hc
    rcases List.mem_append.mp hc with h | h
    · rw [List.eq_of_mem_replicate h]
      decide
    · exact natToChars_all_digit c h
  rw [findFirstNumber_exact (natToCharsPos_ne_nil _) natToCharsPos_all_digit hfc]
  have hlen : (List.replicate (k - (natToChars (n % 10 ^ k)).length) '0' ++
      natToChars (n % 10 ^ k)).length = k := by
    rw [List.length_append, List.length_replicate]
    have hlt : n % 10 ^ k < 10 ^ k := Nat.mod_lt _ (by positivity)
    have := natToChars_length_le hlt
    omega
  simp only [Option.map_some', Option.some.injEq]
  rw [hlen, charsToNat_natToCharsPos, charsToNat_replicate_zeros, charsToNat_natToChars]
  have hdm : n / 10 ^ k * 10 ^ k + n % 10 ^ k = n := by
    rw [mul_comm]
    exact Nat.div_add_mod n (10 ^ k)
  rw [hdm]

theorem decExp0_spec (q : ℚ) (d : Nat) (h : q.den ∣ 10 ^ d) :
    (scaleByPow q (decExp0 q)).den = 1 := by
  have hden0 : q.den ≠ 0 := q.den_nz
  have hself : q.den ∣ 10 ^ q.den := dvd_ten_pow_self q.den hden0 d h
  have hmem : q.den ∈ List.range' 0 (q.den + 1) := by
    rw [List.mem_range'_1]
    omega
  have hsome : ((List.range' 0 (q.den + 1)).find?
      (fun k => (scaleByPow q k).den == 1)).isSome = true := by
    rw [List.find?_isSome]
    exact ⟨q.den, hmem, by simp [scaleByPow_den_one hself]⟩
  obtain ⟨j, hj⟩ := Option.isSome_iff_exists.mp hsome
  have hdec : decExp0 q = j := by
    simp only [decExp0, hj, Option.getD_some]
  have hjp := List.find?_some hj
  simp only [beq_iff_eq] at hjp
  rw [hdec]
  exact hjp

theorem extract_renderPrice (P : ℚ) (hP0 : 0 ≤ P) (d : Nat) (hdvd : P.den ∣ 10 ^ d)
    (hP : P ≠ 0) (hrange : -4 ≤ pyExp P ∧ pyExp P < 16) :
    extract_price_from_text (renderPrice P ++ "€") = some P := by
  obtain ⟨hden1, hk1⟩ := decExp_spec P d hdvd
  have hPnum : (0 : ℤ) ≤ P.num := Rat.num_nonneg.mpr hP0
  have hsign : ¬ P.num < 0 := not_lt.mpr hPnum
  have hrp : renderPrice P = (⟨renderPositional P⟩ : String) := by
    unfold renderPrice
    rw [if_neg hP, if_neg hsign, if_pos hrange]
    rfl
  rw [hrp]
  have hstr : (⟨renderPositional P⟩ : String) ++ "€" =
      (⟨(natToCharsPos ((scaleByPow P (decExp P)).num.natAbs / 10 ^ decExp P) ++ '.' ::
          (List.replicate (decExp P -
              (natToChars ((scaleByPow P (decExp P)).num.natAbs % 10 ^ decExp P)).length) '0' ++
            natToChars ((scaleByPow P (decExp P)).num.natAbs % 10 ^ decExp P))) ++
        ['€']⟩ : String) := rfl
  rw [hstr, parse_render_core ((scaleByPow P (decExp P)).num.natAbs) (decExp P)]
  have hnn : (0 : ℚ) ≤ scaleByPow P (decExp P) := by
    rw [scaleByPow_eq]
    exact mul_nonneg hP0 (by positivity)
  have hnum : (((scaleByPow P (decExp P)).num.natAbs : ℤ)) = (scaleByPow P (decExp P)).num :=
    Int.natAbs_of_nonneg (Rat.num_nonneg.mpr hnn)
  have hint : (((scaleByPow P (decExp P)).num : ℤ) : ℚ) = scaleByPow P (decExp P) :=
    Rat.coe_int_num_of_den_eq_one hden1
  congr 1
  rw [Rat.divInt_eq_div]
  have hn : ((((scaleByPow P (decExp P)).num.natAbs : ℕ) : ℤ) : ℚ) =
      P * ((10 ^ decExp P : ℕ) : ℚ) := by
    rw [hnum, hint, scaleByPow_eq]
  have h10 : ((((10 ^ decExp P : ℕ) : ℕ) : ℤ) : ℚ) = ((10 ^ decExp P : ℕ) : ℚ) := by
    push_cast
    ring
  rw [hn, h10]
  have hne : ((10 ^ decExp P : ℕ) : ℚ) ≠ 0 := by
    positivity
  exact mul_div_cancel_right₀ P hne

/-- C7 counterexample: price extraction is not idempotent through rendering on
the text `"0.00001€"`.  Extraction yields `P = 1e-05`, which Python renders in
scientific notation, `f"{P}€" = "1e-05€"`; re-running extraction on that string
matches only the leading digit of the mantissa and returns `1`, not `P`. -/
theorem price_extraction_not_idempotent_below_range :
    extract_price_from_text "0.00001€" = some (Rat.divInt 1 100000) ∧
      renderPrice (Rat.divInt 1 100000) ++ "€" = "1e-05€" ∧
      extract_price_from_text "1e-05€" = some 1 ∧
      extract_price_from_text (renderPrice (Rat.divInt 1 100000) ++ "€") ≠
        some (Rat.divInt 1 100000) :=
  ⟨by decide, by decide, by decide, by decide⟩

/-- C7 (amended): price extraction is idempotent through rendering on the
positional-notation window — for every text `T` from which
`_extract_price_from_text` returns a price `P` that is zero or lies in
`[0.0001, 10^16)` (the range in which Python renders floats positionally),
running the same extraction on the canonical rendering of `P` followed by the
currency symbol (the string `f"{P}€"`) returns `P` again.  Outside that window
Python renders in scientific notation and idempotence fails. -/
theorem price_extraction_idempotent_in_range (T : String) (P : ℚ)
    (h : extract_price_from_text T = some P)
    (hr : P = 0 ∨ (1 / 10000 ≤ P ∧ P < 10 ^ 16)) :
    extract_price_from_text (renderPrice P ++ "€") = some P := by
  simp only [extract_price_from_text] at h
  rw [Option.map_eq_some'] at h
  obtain ⟨pr, hpr, hval⟩ := h
  have hP0 : 0 ≤ P := by
    rw [← hval, Rat.divInt_eq_div]
    positivity
  have hdvd : P.den ∣ 10 ^ pr.2.length := by
    have hd := Rat.den_dvd
      ((charsToNat pr.1 * 10 ^ pr.2.length + charsToNat pr.2 : ℕ) : ℤ)
      ((10 ^ pr.2.length : ℕ) : ℤ)
    rw [hval] at hd
    exact_mod_cast hd
  rcases hr with h0 | ⟨hlo, hhi⟩
  · rw [h0]
    decide
  · have hPpos : 0 < P := lt_of_lt_of_le (by norm_num) hlo
    have hP : P ≠ 0 := ne_of_gt hPpos
    have hden1 : (scaleByPow P (decExp0 P)).den = 1 := decExp0_spec P pr.2.length hdvd
    have hnn : (0 : ℚ) ≤ scaleByPow P (decExp0 P) := by
      rw [scaleByPow_eq]
      exact mul_nonneg hP0 (by positivity)
    have hPn : ((sciDigits P : ℕ) : ℚ) = P * ((10 ^ decExp0 P : ℕ) : ℚ) := by
      have h1 : ((sciDigits P : ℕ) : ℤ) = (scaleByPow P (decExp0 P)).num :=
        Int.natAbs_of_nonneg (Rat.num_nonneg.mpr hnn)
      calc ((sciDigits P : ℕ) : ℚ) = (((sciDigits P : ℕ) : ℤ) : ℚ) := by push_cast; ring
        _ = (((scaleByPow P (decExp0 P)).num : ℤ) : ℚ) := by rw [h1]
        _ = scaleByPow P (decExp0 P) := Rat.coe_int_num_of_den_eq_one hden1
        _ = P * ((10 ^ decExp0 P : ℕ) : ℚ) := scaleByPow_eq P (decExp0 P)
    have hn0 : sciDigits P ≠ 0 := by
      intro hz
      have hpow : (0 : ℚ) < ((10 ^ decExp0 P : ℕ) : ℚ) := by positivity
      have hne2 : P * ((10 ^ decExp0 P : ℕ) : ℚ) ≠ 0 := ne_of_gt (mul_pos hPpos hpow)
      rw [← hPn, hz] at hne2
      exact hne2 (by norm_num)
    have hL : (natToChars (sciDigits P)).length = Nat.log 10 (sciDigits P) + 1 := by
      rw [natToChars_eq, List.length_reverse, List.length_map,
        Nat.digits_len 10 (sciDigits P) (by norm_num) hn0]
    have hlow : 10 ^ ((natToChars (sciDigits P)).length - 1) ≤ sciDigits P := by
      rw [hL]
      simpa using Nat.pow_log_le_self 10 hn0
    have hup : sciDigits P < 10 ^ (natToChars (sciDigits P)).length := by
      rw [hL]
      exact Nat.lt_pow_succ_log_self (by norm_num) _
    have hcast10 : ∀ j : Nat, ((10 ^ j : ℕ) : ℚ) = (10 : ℚ) ^ j := by
      intro j
      push_cast
      ring
    have hq1 : (10 : ℚ) ^ decExp0 P < 10 ^ ((natToChars (sciDigits P)).length + 4) := by
      have h2 : ((sciDigits P : ℕ) : ℚ) < 10 ^ (natToChars (sciDigits P)).length := by
        calc ((sciDigits P : ℕ) : ℚ) < ((10 ^ (natToChars (sciDigits P)).length : ℕ) : ℚ) := by
              exact_mod_cast hup
          _ = 10 ^ (natToChars (sciDigits P)).length := hcast10 _
      have h1 : (1 / 10000 : ℚ) * 10 ^ decExp0 P ≤ ((sciDigits P : ℕ) : ℚ) := by
        rw [hPn, hcast10]
        exact mul_le_mul_of_nonneg_right hlo (by positivity)
      calc (10 : ℚ) ^ decExp0 P = 10000 * ((1 / 10000 : ℚ) * 10 ^ decExp0 P) := by ring
        _ ≤ 10000 * ((sciDigits P : ℕ) : ℚ) := by linarith
        _ < 10000 * (10 ^ (natToChars (sciDigits P)).length) := by linarith
        _ = 10 ^ ((natToChars (sciDigits P)).length + 4) := by rw [pow_add]; ring
    have hq2 : (10 : ℚ) ^ ((natToChars (sciDigits P)).length - 1) < 10 ^ (16 + decExp0 P) := by
      have h1 : (10 : ℚ) ^ ((natToChars (sciDigits P)).length - 1) ≤ ((sciDigits P : ℕ) : ℚ) := by
        calc (10 : ℚ) ^ ((natToChars (sciDigits P)).length - 1) =
              ((10 ^ ((natToChars (sciDigits P)).length - 1) : ℕ) : ℚ) := (hcast10 _).symm
          _ ≤ ((sciDigits P : ℕ) : ℚ) := by exact_mod_cast hlow
      have h2 : ((sciDigits P : ℕ) : ℚ) < 10 ^ 16 * 10 ^ decExp0 P := by
        rw [hPn, hcast10]
        exact mul_lt_mul_of_pos_right hhi (by positivity)
      calc (10 : ℚ) ^ ((natToChars (sciDigits P)).length - 1) ≤ ((sciDigits P : ℕ) : ℚ) := h1
        _ < 10 ^ 16 * 10 ^ decExp0 P := h2
        _ = 10 ^ (16 + decExp0 P) := by rw [pow_add]
    have hk1 : decExp0 P < (natToChars (sciDigits P)).length + 4 :=
      (pow_lt_pow_iff_right₀ (by norm_num : (1 : ℚ) < 10)).mp hq1
    have hk2 : (natToChars (sciDigits P)).length - 1 < 16 + decExp0 P :=
      (pow_lt_pow_iff_right₀ (by norm_num : (1 : ℚ) < 10)).mp hq2
    have hL1 : 1 ≤ (natToChars (sciDigits P)).length := by
      rw [hL]
      omega
    have hrange : -4 ≤ pyExp P ∧ pyExp P < 16 := by
      have hpy : pyExp P =
          ((natToChars (sciDigits P)).length : ℤ) - 1 - (decExp0 P : ℤ) := rfl
      rw [hpy]
      constructor <;> omega
    exact extract_renderPrice P hP0 pr.2.length hdvd hP hrange

theorem price_extraction_idempotent_in_range_witness :
    extract_price_from_text "19,99 €" = some (Rat.divInt 1999 100) ∧
      (Rat.divInt 1999 100 = 0 ∨
        (1 / 10000 ≤ Rat.divInt 1999 100 ∧ Rat.divInt 1999 100 < 10 ^ 16)) ∧
      extract_price_from_text (renderPrice (Rat.divInt 1999 100) ++ "€") =
        some (Rat.divInt 1999 100) :=
  ⟨by decide,
    Or.inr ⟨by norm_num [Rat.divInt_eq_div], by norm_num [Rat.divInt_eq_div]⟩,
    price_extraction_idempotent_in_range "19,99 €" (Rat.divInt 1999 100) (by decide)
      (Or.inr ⟨by norm_num [Rat.divInt_eq_div], by norm_num [Rat.divInt_eq_div]⟩)⟩
